import Mathlib

/-!
Shallow embedding of `draw_networkx_edges` from
`src/draw_networkx_edges_arrows.py`, together with theorems settling the
claims about its arrow-geometry computation.

Conventions of the embedding:
* Python floats are modelled as real numbers (exact arithmetic); `numpy`'s
  `sqrt`, `cos`, `sin`, `arctan2` become `Real.sqrt`, `Real.cos`, `Real.sin`
  and `Complex.arg`.
* The per-edge loop (source lines 244-302) mutates the lists `a_pos`,
  `orthoslope`, `thetas`, `lengths` and the scalar `p`; this is modelled as a
  left fold over an explicit `LoopState`.
* A Python `IndexError` (out-of-range list subscript) is modelled by `Option`:
  `none` means the computation raises.
-/

namespace DrawArrows

/-- A 2-D point `(x, y)`. -/
abbrev Pt : Type := ℝ × ℝ

/-- An edge as stored in `edge_pos`: an ordered pair (source point, dest point). -/
abbrev Edge : Type := Pt × Pt

/-- Embedding of `numpy.arctan2(dy, dx)`: the angle of the vector `(dx, dy)`, modelled as the
argument of the complex number `dx + dy·i`. -/
noncomputable def arctan2 (y x : ℝ) : ℝ := Complex.arg ⟨x, y⟩

/-- Source line 247: `dx = x2 - x1`. -/
def dxOf (e : Edge) : ℝ := e.2.1 - e.1.1

/-- Source line 248: `dy = y2 - y1`. -/
def dyOf (e : Edge) : ℝ := e.2.2 - e.1.2

/-- Source line 249: `d = numpy.sqrt(float(dx**2 + dy**2))`, the edge length. -/
noncomputable def dOf (e : Edge) : ℝ := Real.sqrt (dxOf e ^ 2 + dyOf e ^ 2)

/-- Source line 257: `p = 1.0 - 0.25 / (2*d/100.0)`, as a function of `d`. -/
noncomputable def pOf (d : ℝ) : ℝ := 1 - 0.25 / (2 * d / 100)

/-- Source lines 299-300, `if dy2 == 0: dy2 = 0.00000000000001`: the
denominator actually used for the orthogonal slope. -/
noncomputable def orthoDenom (dy2 : ℝ) : ℝ := if dy2 = 0 then 0.00000000000001 else dy2

/-- The mutable state of the per-edge loop (source lines 233-302): the lists
`a_pos`, `orthoslope`, `thetas`, `lengths`, and the scalar `p` (which leaks out
of the loop and is later read by the arrowhead pass). -/
structure LoopState where
  a_pos : List Edge
  orthoslope : List ℝ
  thetas : List ℝ
  lengths : List ℝ
  p : ℝ

/-- Appends one processed edge's shaft segment `((xa, ya), (x2, y2))` and its
orthogonal slope `(-dx2)/dy2` (with the zero-denominator substitution,
source lines 288-302) to the state. -/
noncomputable def pushEdge (s : LoopState) (lengths : List ℝ) (p : ℝ)
    (xa ya x2 y2 : ℝ) (theta : Option ℝ) : LoopState :=
  let dx2 := x2 - xa
  let dy2 := y2 - ya
  { a_pos := s.a_pos ++ [((xa, ya), (x2, y2))]
    orthoslope := s.orthoslope ++ [(-1 * dx2) / orthoDenom dy2]
    thetas := s.thetas ++ (theta.map (fun t => [t])).getD []
    lengths := lengths
    p := p }

/-- One iteration of the `for src, dst in edge_pos` loop (source lines 244-302).

Control flow of the source, which this definition transliterates:
```
d = sqrt(dx**2 + dy**2); lengths.append(d)
p = 1.0 - 0.25 / (2*d/100.0)
if d == 0: continue        # lengths already extended, nothing else changes
if dx == 0: xa = x2; ya = dy*p + y1          # (A)
if dy == 0: ya = y2; xa = dx*p + x1          # (B)
else:                                        # attaches to (B), not (A)!
    theta = arctan2(dy, dx); thetas.append(theta)
    xa = p*d*cos(theta) + x1; ya = p*d*sin(theta) + y1
    if arrowheads == False:
        xa = p*p*d*cos(theta) + x1; ya = p*p*d*sin(theta) + y1
        x2 = 1.05*p*p*d*cos(theta) + x1; y2 = 1.05*p*p*d*sin(theta) + y1
a_pos.append(((xa, ya), (x2, y2))); ...orthoslope.append(...)
```
Because the `else` attaches to the `dy == 0` test, for `d ≠ 0`:
when `dy = 0` the final `(xa, ya)` comes from (B) — (A) cannot have fired,
since `dx = 0 ∧ dy = 0` forces `d = 0`; and when `dy ≠ 0` the `else` branch
runs and unconditionally overwrites both `xa` and `ya`, so any assignment made
by (A) for a vertical edge is dead.  The `if dx == 0` stage therefore never
determines the appended values and is recorded here only by this comment. -/
noncomputable def edgeStep (arrowheads : Bool) (s : LoopState) (e : Edge) : LoopState :=
  let x1 := e.1.1
  let y1 := e.1.2
  let x2 := e.2.1
  let y2 := e.2.2
  let dx := dxOf e
  let dy := dyOf e
  let d := dOf e
  let lengths := s.lengths ++ [d]
  let p := pOf d
  if d = 0 then
    { s with lengths := lengths, p := p }
  else
    if dy = 0 then
      pushEdge s lengths p (dx * p + x1) y2 x2 y2 none
    else
      let theta := arctan2 dy dx
      if arrowheads then
        pushEdge s lengths p (p * d * Real.cos theta + x1) (p * d * Real.sin theta + y1)
          x2 y2 (some theta)
      else
        pushEdge s lengths p (p * p * d * Real.cos theta + x1)
          (p * p * d * Real.sin theta + y1)
          (1.05 * p * p * d * Real.cos theta + x1)
          (1.05 * p * p * d * Real.sin theta + y1) (some theta)

/-- The loop's initial state: all lists empty and `p = 1.0 - 0.25` (source
line 243). -/
def initState : LoopState := ⟨[], [], [], [], 1 - 0.25⟩

/-- The whole per-edge loop over `edge_pos` (source lines 244-302). -/
noncomputable def runLoop (arrowheads : Bool) (edges : List Edge) : LoopState :=
  edges.foldl (edgeStep arrowheads) initState

/-- Source line 327: `dist = [2. * ww for ww in lw]`. -/
def distList (lw : List ℝ) : List ℝ := lw.map (fun ww => 2 * ww)

/-- Source lines 337-340: `dist_to_use` for arrow index `i`; cycles through
`dist` when there are more edges than widths, and multiplies by `p` — the value
the scalar `p` holds after the first loop finished. -/
def dist_to_use (p : ℝ) (dist : List ℝ) (i : ℕ) : ℝ :=
  if i + 1 > dist.length then p * dist.getD (i % dist.length) 0
  else p * dist.getD i 0

/-- Source lines 342-345: `arrow_width`; note the denominator is
`1 + orthoslope[i]`, the slope itself, not its square. -/
noncomputable def arrow_width (dtu slope : ℝ) : ℝ :=
  if dtu ^ 2 / (1 + slope) < 0 then
    0.5 * Real.sqrt (-1 * dtu ^ 2 / (1 + slope))
  else
    Real.sqrt (dtu ^ 2 / (1 + slope))

/-- The arrowhead triangle for arrow index `i` (source lines 335-370): the two
wing vertices (lines 347-357) and the three final vertices translated along the
edge by `apos_on_edge * lengths[i]` (lines 367-369).  `none` models the
`IndexError` Python raises when a subscript (`thetas[i]` in particular) is out
of range. -/
noncomputable def a_vert (s : LoopState) (lw : List ℝ) (apos_on_edge : ℝ) (i : ℕ) :
    Option (Pt × Pt × Pt) :=
  match s.a_pos[i]?, s.orthoslope[i]?, s.thetas[i]?, s.lengths[i]? with
  | some ap, some sl, some th, some ln =>
    let dtu := dist_to_use s.p (distList lw) i
    let aw := arrow_width dtu sl
    let vertex1_x := ap.1.1 + aw
    let vertex2_x := ap.1.1 - aw
    let vertex1_y := ap.1.2 + 1 * sl * (vertex1_x - ap.1.1)
    let vertex2_y := ap.1.2 + 1 * sl * (vertex2_x - ap.1.1)
    some ((vertex1_x - apos_on_edge * ln * Real.cos th,
           vertex1_y - apos_on_edge * ln * Real.sin th),
          (vertex2_x - apos_on_edge * ln * Real.cos th,
           vertex2_y - apos_on_edge * ln * Real.sin th),
          (ap.2.1 - apos_on_edge * ln * Real.cos th,
           ap.2.2 - apos_on_edge * ln * Real.sin th))
  | _, _, _, _ => none

/-- Source lines 367-370: `a_verts`, one triangle per entry of `a_pos`;
`none` when any subscript raises. -/
noncomputable def a_verts (s : LoopState) (lw : List ℝ) (apos_on_edge : ℝ) :
    Option (List (Pt × Pt × Pt)) :=
  (List.range s.a_pos.length).mapM (a_vert s lw apos_on_edge)

/-- One element of an `edge_color` sequence: a color name string, an
rgb/rgba-style tuple (iterable of floats), or a bare number destined for a
colormap. -/
inductive ColorVal
  | str (s : String)
  | rgb (components : List ℝ)
  | num (x : ℝ)

/-- Embedding of `cb.is_string_like(c)` for a sequence element. -/
def ColorVal.isStr : ColorVal → Bool
  | .str _ => true
  | _ => false

/-- Embedding of `cb.iterable(c) and len(c) in (3, 4)` for a sequence element
(source line 172): numbers are not iterable; tuples and strings are. -/
def ColorVal.isLen34Iterable : ColorVal → Bool
  | .str s => s.length = 3 ∨ s.length = 4
  | .rgb t => t.length = 3 ∨ t.length = 4
  | .num _ => false

/-- The `edge_color` argument: either a single color string
(`cb.is_string_like` holds) or a sequence of color values. -/
inductive EdgeColor
  | str (s : String)
  | vals (cs : List ColorVal)

/-- The resolved `edge_colors` value: a tuple of rgba-converted strings, a
tuple of rgb(a) tuples, `None` (numbers to be colormapped), or a 1-tuple from
converting the whole argument. -/
inductive EdgeColors
  | strColors (names : List String)
  | rgbColors (tuples : List (List ℝ))
  | colormap
  | single (c : EdgeColor)

/-- The `edge_color` dispatch (source lines 160-184), producing either
`edge_colors` or the `ValueError` message raised. -/
def resolveColors (edge_color : EdgeColor) (m : ℕ) : Except String EdgeColors :=
  match edge_color with
  | .str s =>
    -- is_string_like(edge_color) holds, so the outer `if` fails and the
    -- `else` takes the single-color path (source lines 180-182)
    Except.ok (EdgeColors.single (.str s))
  | .vals cs =>
    if cs.length = m then
      if cs.all ColorVal.isStr then
        Except.ok (EdgeColors.strColors (cs.filterMap (fun c =>
          match c with | .str s => some s | _ => none)))
      else if cs.all (fun c => !c.isStr) then
        if cs.all ColorVal.isLen34Iterable then
          Except.ok (EdgeColors.rgbColors (cs.filterMap (fun c =>
            match c with | .rgb t => some t | _ => none)))
        else
          Except.ok EdgeColors.colormap
      else
        Except.error ("edge_color must consist of either color names or numbers")
    else
      if cs.length = 1 then
        Except.ok (EdgeColors.single (.vals cs))
      else
        Except.error
          ("edge_color must be a single color or list of exactly m colors where m is the number or edges")

/-- The `width` argument: a bare float or a sequence of floats. -/
inductive Width
  | scalar (w : ℝ)
  | seq (ws : List ℝ)

/-- Source lines 155-158: `lw`; a scalar width becomes the 1-tuple `(width,)`. -/
def lwOf : Width → List ℝ
  | .scalar w => [w]
  | .seq ws => ws

/-- The arrow collection added to the axes: a `PolyCollection` of triangles
(`arrowheads` true) or a `LineCollection` of the `a_pos` stubs. -/
inductive ArrowOut
  | polys (vs : List (Pt × Pt × Pt))
  | segments (segs : List Edge)

/-- Source lines 403-412: `ax.update_datalim(corners)`, the edge-position
bounding box expanded by 5 percent on each axis. -/
noncomputable def cornersOf (edge_pos : List Edge) : Pt × Pt :=
  let xs := edge_pos.map (fun e => e.1.1) ++ edge_pos.map (fun e => e.2.1)
  let ys := edge_pos.map (fun e => e.1.2) ++ edge_pos.map (fun e => e.2.2)
  let minx := xs.foldl min (xs.headD 0)
  let maxx := xs.foldl max (xs.headD 0)
  let miny := ys.foldl min (ys.headD 0)
  let maxy := ys.foldl max (ys.headD 0)
  let padx := 0.05 * (maxx - minx)
  let pady := 0.05 * (maxy - miny)
  ((minx - padx, miny - pady), (maxx + padx, maxy + pady))

/-- Everything `draw_networkx_edges` adds to the axes (and its return value)
when it completes: the edge `LineCollection` (whose segments are `edge_pos`),
the resolved edge colors, the arrow collection when arrows are drawn, and the
data-limit corners. -/
structure DrawOutput where
  edgeSegments : List Edge
  edgeColors : EdgeColors
  arrow : Option ArrowOut
  corners : Pt × Pt

/-- An exception escaping `draw_networkx_edges`. -/
inductive DrawError
  | valueError (msg : String)
  | indexError

/-- The observable behaviour of `draw_networkx_edges` (source lines 32-416)
on a graph whose nodes have type `ν`.  `Except.ok none` models the early
`return None` for an empty edge list (source lines 149-150), before any
collection is created; `Except.error` models an exception raised before the
function returns, in which case nothing after the raise point happens. -/
noncomputable def draw_networkx_edges {ν : Type} (directed : Bool)
    (Gedges : List (ν × ν)) (pos : ν → Pt) (edgelist : Option (List (ν × ν)))
    (width : Width) (edge_color : EdgeColor) (arrows arrowheads : Bool)
    (apos_on_edge : ℝ) : Except DrawError (Option DrawOutput) :=
  let el := edgelist.getD Gedges
  if el.length = 0 then Except.ok none
  else
    let edge_pos : List Edge := el.map (fun e => (pos e.1, pos e.2))
    let lw := lwOf width
    match resolveColors edge_color edge_pos.length with
    | .error msg => Except.error (DrawError.valueError msg)
    | .ok ecs =>
      if directed && arrows then
        let s := runLoop arrowheads edge_pos
        if arrowheads then
          match a_verts s lw apos_on_edge with
          | none => Except.error DrawError.indexError
          | some vs =>
            Except.ok (some ⟨edge_pos, ecs, some (ArrowOut.polys vs), cornersOf edge_pos⟩)
        else
          Except.ok (some ⟨edge_pos, ecs, some (ArrowOut.segments s.a_pos), cornersOf edge_pos⟩)
      else
        Except.ok (some ⟨edge_pos, ecs, none, cornersOf edge_pos⟩)

/-- The shaft segment appended for a non-degenerate edge taken by the general
(`else`) branch with `arrowheads` true, in closed form: trigonometry eliminated
via `cos (arctan2 dy dx) = dx / d` and `sin (arctan2 dy dx) = dy / d`. -/
noncomputable def shaftOf (e : Edge) : Edge :=
  ((pOf (dOf e) * dxOf e + e.1.1, pOf (dOf e) * dyOf e + e.1.2), e.2)

/-- The `theta` recorded for an edge taken by the general branch. -/
noncomputable def thetaOf (e : Edge) : ℝ := arctan2 (dyOf e) (dxOf e)

/-- Closed form of the orthogonal slope recorded for a general-branch edge
with `arrowheads` true: `(-dx2)/dy2 = -dx/dy` since
`dx2 = (1-p)·dx` and `dy2 = (1-p)·dy` with `1-p ≠ 0`. -/
noncomputable def slopeOf (e : Edge) : ℝ := -dxOf e / dyOf e

/-- The value the scalar `p` holds after the loop: the `p` of the last edge,
or the initial value when the list is empty. -/
noncomputable def pAfter (p0 : ℝ) (edges : List Edge) : ℝ :=
  edges.foldl (fun _ e => pOf (dOf e)) p0

/-- Number of degenerate (zero-length) edges in the list. -/
noncomputable def zeroLengthCount (edges : List Edge) : ℕ :=
  edges.countP (fun e => decide (dOf e = 0))

/-- The arrowhead triangle produced for arrow index `i` when the per-edge
lists are aligned with the edge list: the three vertices are the two wing
vertices and the edge tip, each translated backward along the edge direction
`(cos θ, sin θ)` of that same edge by `apos_on_edge` times that same edge's
length `dOf e`. -/
noncomputable def triangleOf (pLast : ℝ) (lw : List ℝ) (apos_on_edge : ℝ) (i : ℕ)
    (e : Edge) : Pt × Pt × Pt :=
  let aw := arrow_width (dist_to_use pLast (distList lw) i) (slopeOf e)
  let sx := pOf (dOf e) * dxOf e + e.1.1
  let sy := pOf (dOf e) * dyOf e + e.1.2
  let tdx := apos_on_edge * dOf e * Real.cos (thetaOf e)
  let tdy := apos_on_edge * dOf e * Real.sin (thetaOf e)
  ((sx + aw - tdx, sy + slopeOf e * aw - tdy),
   (sx - aw - tdx, sy + slopeOf e * -aw - tdy),
   (e.2.1 - tdx, e.2.2 - tdy))

/-- The wing-offset formula as the spec words it — `sqrt(d² / (1 + slope²))`
with the orthogonal slope squared in the denominator.  Declared only to be
compared against the source's `arrow_width`, which divides by `1 + slope`
instead. -/
noncomputable def specArrowWidth (dtu slope : ℝ) : ℝ :=
  Real.sqrt (dtu ^ 2 / (1 + slope ^ 2))

/-- Lemma: `cos (arctan2 dy dx) = dx / sqrt (dx² + dy²)` whenever
`(dx, dy) ≠ (0, 0)`. -/
lemma cos_arctan2 (y x : ℝ) (h : ¬(x = 0 ∧ y = 0)) :
    Real.cos (arctan2 y x) = x / Real.sqrt (x ^ 2 + y ^ 2) := by
  have hz : (⟨x, y⟩ : ℂ) ≠ 0 := by
    intro hc
    exact h ⟨congrArg Complex.re hc, congrArg Complex.im hc⟩
  have := Complex.cos_arg hz
  rwa [Complex.abs_apply, Complex.normSq_mk, show x * x + y * y = x ^ 2 + y ^ 2 by ring]
    at this

/-- Lemma: `sin (arctan2 dy dx) = dy / sqrt (dx² + dy²)`. -/
lemma sin_arctan2 (y x : ℝ) :
    Real.sin (arctan2 y x) = y / Real.sqrt (x ^ 2 + y ^ 2) := by
  have := Complex.sin_arg (⟨x, y⟩ : ℂ)
  rwa [Complex.abs_apply, Complex.normSq_mk, show x * x + y * y = x ^ 2 + y ^ 2 by ring]
    at this

/-- An edge has `dOf e = 0` exactly when source and destination coincide. -/
lemma dOf_eq_zero_iff (e : Edge) : dOf e = 0 ↔ dxOf e = 0 ∧ dyOf e = 0 := by
  unfold dOf
  rw [Real.sqrt_eq_zero']
  constructor
  · intro h
    constructor
    · nlinarith [sq_nonneg (dxOf e), sq_nonneg (dyOf e)]
    · nlinarith [sq_nonneg (dxOf e), sq_nonneg (dyOf e)]
  · rintro ⟨hx, hy⟩
    rw [hx, hy]
    norm_num

/-- The edge length `dOf` is nonnegative. -/
lemma dOf_nonneg (e : Edge) : 0 ≤ dOf e := Real.sqrt_nonneg _

/-- For a non-degenerate edge, `1 - p ≠ 0` (indeed `1 - p = 12.5 / d`). -/
lemma one_sub_pOf (e : Edge) (hd : dOf e ≠ 0) :
    1 - pOf (dOf e) = 12.5 / dOf e ∧ 1 - pOf (dOf e) ≠ 0 := by
  have hd' : (0 : ℝ) < dOf e := lt_of_le_of_ne (dOf_nonneg e) (Ne.symm hd)
  constructor
  · unfold pOf
    field_simp
    ring
  · unfold pOf
    intro h
    have : (0.25 : ℝ) / (2 * dOf e / 100) = 0 := by linarith
    have h2 : (2 * dOf e / 100) ≠ 0 := by positivity
    rw [div_eq_zero_iff] at this
    rcases this with h1 | h1
    · norm_num at h1
    · exact h2 h1

/-- For a non-degenerate edge, `c · d · cos θ = c · dx`. -/
lemma mul_d_cos (e : Edge) (hd : dOf e ≠ 0) (c : ℝ) :
    c * dOf e * Real.cos (arctan2 (dyOf e) (dxOf e)) = c * dxOf e := by
  have hne : ¬(dxOf e = 0 ∧ dyOf e = 0) := fun hc => hd ((dOf_eq_zero_iff e).2 hc)
  rw [cos_arctan2 _ _ hne]
  rw [show Real.sqrt (dxOf e ^ 2 + dyOf e ^ 2) = dOf e from rfl]
  field_simp
  ring

/-- For a non-degenerate edge, `c · d · sin θ = c · dy`. -/
lemma mul_d_sin (e : Edge) (hd : dOf e ≠ 0) (c : ℝ) :
    c * dOf e * Real.sin (arctan2 (dyOf e) (dxOf e)) = c * dyOf e := by
  rw [sin_arctan2]
  rw [show Real.sqrt (dxOf e ^ 2 + dyOf e ^ 2) = dOf e from rfl]
  field_simp
  ring

/-- Degenerate edge: the step only appends the length and updates `p`
(source line 259's `continue`). -/
lemma edgeStep_degenerate (ah : Bool) (s : LoopState) (e : Edge) (hd : dOf e = 0) :
    edgeStep ah s e =
      { s with lengths := s.lengths ++ [dOf e], p := pOf (dOf e) } := by
  simp only [edgeStep]
  rw [if_pos hd]

/-- Horizontal non-degenerate edge (`dy = 0`): the `dy == 0` branch fixes the
shaft endpoint at `(dx*p + x1, y2)`, no `theta` is recorded, and the general
formula is never executed. -/
lemma edgeStep_horizontal (ah : Bool) (s : LoopState) (e : Edge)
    (hd : dOf e ≠ 0) (hy : dyOf e = 0) :
    edgeStep ah s e =
      pushEdge s (s.lengths ++ [dOf e]) (pOf (dOf e))
        (dxOf e * pOf (dOf e) + e.1.1) e.2.2 e.2.1 e.2.2 none := by
  simp only [edgeStep]
  rw [if_neg hd, if_pos hy]

/-- General-branch non-degenerate edge (`dy ≠ 0`) with `arrowheads` true: a
`theta` is recorded and the trigonometric formula evaluates, in exact
arithmetic, to the linear form `(p·dx + x1, p·dy + y1)`. -/
lemma edgeStep_general (s : LoopState) (e : Edge)
    (hd : dOf e ≠ 0) (hy : dyOf e ≠ 0) :
    edgeStep true s e =
      pushEdge s (s.lengths ++ [dOf e]) (pOf (dOf e))
        (pOf (dOf e) * dxOf e + e.1.1) (pOf (dOf e) * dyOf e + e.1.2)
        e.2.1 e.2.2 (some (thetaOf e)) := by
  simp only [edgeStep]
  rw [if_neg hd, if_neg hy]
  simp only [if_true]
  rw [mul_d_cos e hd, mul_d_sin e hd]
  rfl

/-- General-branch non-degenerate edge with `arrowheads` false: the rectangular
stub re-assigns both the shaft endpoint (`p²` scaling) and the tip
(`1.05·p²` scaling). -/
lemma edgeStep_general_rect (s : LoopState) (e : Edge)
    (hd : dOf e ≠ 0) (hy : dyOf e ≠ 0) :
    edgeStep false s e =
      pushEdge s (s.lengths ++ [dOf e]) (pOf (dOf e))
        (pOf (dOf e) * pOf (dOf e) * dxOf e + e.1.1)
        (pOf (dOf e) * pOf (dOf e) * dyOf e + e.1.2)
        (1.05 * pOf (dOf e) * pOf (dOf e) * dxOf e + e.1.1)
        (1.05 * pOf (dOf e) * pOf (dOf e) * dyOf e + e.1.2)
        (some (thetaOf e)) := by
  simp only [edgeStep]
  rw [if_neg hd, if_neg hy]
  simp only [Bool.false_eq_true, if_false]
  rw [mul_d_cos e hd, mul_d_sin e hd, mul_d_cos e hd, mul_d_sin e hd]
  rfl

lemma pAfter_nil (p0 : ℝ) : pAfter p0 [] = p0 := rfl

lemma pAfter_cons (p0 : ℝ) (e : Edge) (es : List Edge) :
    pAfter p0 (e :: es) = pAfter (pOf (dOf e)) es := rfl

/-- When every edge is non-degenerate with `dy ≠ 0` and `arrowheads` is true,
the four loop lists are the per-edge maps of `shaftOf`, `slopeOf`, `thetaOf`,
`dOf` — in particular all four stay index-aligned with the edge list. -/
lemma foldl_aligned (edges : List Edge)
    (h : ∀ e ∈ edges, dOf e ≠ 0 ∧ dyOf e ≠ 0) (s : LoopState) :
    edges.foldl (edgeStep true) s =
      { a_pos := s.a_pos ++ edges.map shaftOf
        orthoslope := s.orthoslope ++ edges.map slopeOf
        thetas := s.thetas ++ edges.map thetaOf
        lengths := s.lengths ++ edges.map dOf
        p := pAfter s.p edges } := by
  induction edges generalizing s with
  | nil => simp [pAfter]
  | cons e es ih =>
    have he := h e (List.mem_cons_self e es)
    have hes : ∀ e' ∈ es, dOf e' ≠ 0 ∧ dyOf e' ≠ 0 :=
      fun e' he' => h e' (List.mem_cons_of_mem e he')
    rw [List.foldl_cons, ih hes, edgeStep_general s e he.1 he.2]
    have hslope : (-1 * (e.2.1 - (pOf (dOf e) * dxOf e + e.1.1))) /
        orthoDenom (e.2.2 - (pOf (dOf e) * dyOf e + e.1.2)) = slopeOf e := by
      have h1p := one_sub_pOf e he.1
      have hdx2 : e.2.1 - (pOf (dOf e) * dxOf e + e.1.1) = (1 - pOf (dOf e)) * dxOf e := by
        unfold dxOf
        ring
      have hdy2 : e.2.2 - (pOf (dOf e) * dyOf e + e.1.2) = (1 - pOf (dOf e)) * dyOf e := by
        unfold dyOf
        ring
      rw [hdx2, hdy2]
      rw [show orthoDenom ((1 - pOf (dOf e)) * dyOf e) = (1 - pOf (dOf e)) * dyOf e from
        if_neg (mul_ne_zero h1p.2 he.2)]
      rw [show -1 * ((1 - pOf (dOf e)) * dxOf e) = (1 - pOf (dOf e)) * -dxOf e by ring]
      rw [mul_div_mul_left _ _ h1p.2]
      unfold slopeOf
      rw [neg_div]
    simp only [pushEdge, hslope]
    simp [shaftOf, pAfter_cons]

/-- Each step grows `a_pos` by one entry, except for degenerate edges which
are skipped. -/
lemma edgeStep_a_pos_length (ah : Bool) (s : LoopState) (e : Edge) :
    (edgeStep ah s e).a_pos.length =
      s.a_pos.length + (if dOf e = 0 then 0 else 1) := by
  by_cases hd : dOf e = 0
  · rw [edgeStep_degenerate ah s e hd, if_pos hd]
    simp
  · rw [if_neg hd]
    by_cases hy : dyOf e = 0
    · rw [edgeStep_horizontal ah s e hd hy]
      simp [pushEdge]
    · cases ah
      · rw [edgeStep_general_rect s e hd hy]
        simp [pushEdge]
      · rw [edgeStep_general s e hd hy]
        simp [pushEdge]

/-- Folding the loop grows `a_pos` by the number of non-degenerate edges. -/
lemma foldl_a_pos_length (ah : Bool) (edges : List Edge) (s : LoopState) :
    (edges.foldl (edgeStep ah) s).a_pos.length + zeroLengthCount edges =
      s.a_pos.length + edges.length := by
  induction edges generalizing s with
  | nil => simp [zeroLengthCount]
  | cons e es ih =>
    rw [List.foldl_cons]
    have hcount : zeroLengthCount (e :: es) =
        zeroLengthCount es + (if dOf e = 0 then 1 else 0) := by
      unfold zeroLengthCount
      rw [List.countP_cons]
      by_cases hd : dOf e = 0 <;> simp [hd]
    rw [hcount, ← Nat.add_assoc, ih (edgeStep ah s e), edgeStep_a_pos_length ah s e]
    by_cases hd : dOf e = 0 <;> simp [hd, List.length_cons] <;> omega

/-- Evaluation helper: `Real.sqrt a = b` when `b ≥ 0` and `b² = a`. -/
lemma sqrt_eq_of_sq (a b : ℝ) (hb : 0 ≤ b) (h : b ^ 2 = a) : Real.sqrt a = b := by
  rw [← h, Real.sqrt_sq hb]

/-- C6 amended: when the edge list contains no degenerate and no exactly
horizontal edges (so `a_pos`, `orthoslope`, `thetas` and `lengths` stay
index-aligned), the triangle built for arrow index `i` is `triangleOf` of
edge `i` itself: its two wing vertices and its tip are each translated
backward along that same edge's direction `(cos θ, sin θ)` by exactly
`apos_on_edge` times that same edge's length.  (With a degenerate edge
earlier in the list the `lengths` list misaligns and the translation uses the
wrong edge's length — see the counterexample.) -/
theorem a_vert_aligned (edges : List Edge)
    (h : ∀ e ∈ edges, dOf e ≠ 0 ∧ dyOf e ≠ 0) (lw : List ℝ) (apos_on_edge : ℝ)
    (i : ℕ) (hi : i < edges.length) :
    a_vert (runLoop true edges) lw apos_on_edge i =
      some (triangleOf (pAfter (1 - 0.25) edges) lw apos_on_edge i edges[i]) := by
  have hs := foldl_aligned edges h initState
  rw [runLoop, hs]
  have hlen : i < (List.map shaftOf edges).length := by
    rw [List.length_map]
    exact hi
  have h1 : ([] ++ List.map shaftOf edges)[i]? = some (shaftOf edges[i]) := by
    rw [List.nil_append, List.getElem?_map shaftOf edges i, List.getElem?_eq_getElem hi]
    rfl
  have h2 : ([] ++ List.map slopeOf edges)[i]? = some (slopeOf edges[i]) := by
    rw [List.nil_append, List.getElem?_map slopeOf edges i, List.getElem?_eq_getElem hi]
    rfl
  have h3 : ([] ++ List.map thetaOf edges)[i]? = some (thetaOf edges[i]) := by
    rw [List.nil_append, List.getElem?_map thetaOf edges i, List.getElem?_eq_getElem hi]
    rfl
  have h4 : ([] ++ List.map dOf edges)[i]? = some (dOf edges[i]) := by
    rw [List.nil_append, List.getElem?_map dOf edges i, List.getElem?_eq_getElem hi]
    rfl
  simp only [a_vert, initState, h1, h2, h3, h4]
  simp only [triangleOf, shaftOf, thetaOf, Option.some.injEq, Prod.mk.injEq]
  and_intros <;> ring

/-- C3: for the single vertical edge from (0,0) to (0,50) with arrows enabled
and triangular arrowheads, the shaft endpoint stored in `a_pos` for that edge
is exactly (0, 37.5) — that is `(0, p·50)` with
`p = 1 − 0.25/(2·50/100) = 0.75` — and the stored tip is (0, 50). -/
theorem vertical_edge_shaft_endpoint :
    (runLoop true [(((0 : ℝ), (0 : ℝ)), ((0 : ℝ), (50 : ℝ)))]).a_pos =
      [(((0 : ℝ), (37.5 : ℝ)), ((0 : ℝ), (50 : ℝ)))] := by
  have he : dOf (((0 : ℝ), (0 : ℝ)), ((0 : ℝ), (50 : ℝ))) = 50 := by
    show Real.sqrt (((0 : ℝ) - 0) ^ 2 + ((50 : ℝ) - 0) ^ 2) = 50
    rw [show ((0 : ℝ) - 0) ^ 2 + ((50 : ℝ) - 0) ^ 2 = 50 ^ 2 by norm_num]
    exact Real.sqrt_sq (by norm_num)
  have hy : dyOf (((0 : ℝ), (0 : ℝ)), ((0 : ℝ), (50 : ℝ))) ≠ 0 := by
    show (50 : ℝ) - 0 ≠ 0
    norm_num
  rw [show runLoop true [(((0 : ℝ), (0 : ℝ)), ((0 : ℝ), (50 : ℝ)))] =
      edgeStep true initState (((0 : ℝ), (0 : ℝ)), ((0 : ℝ), (50 : ℝ))) from rfl]
  rw [edgeStep_general initState _ (by rw [he]; norm_num) hy]
  simp only [pushEdge, initState, he]
  norm_num [pOf, dxOf, dyOf]

/-- C4: for every edge list and either arrowhead mode, every zero-length edge
is skipped by the arrow loop, so the number of arrow shaft segments collected
in `a_pos` equals the total edge count minus the number of zero-length edges,
and in particular never exceeds the total. -/
theorem arrow_count_skips_degenerate (ah : Bool) (edges : List Edge) :
    (runLoop ah edges).a_pos.length = edges.length - zeroLengthCount edges ∧
      (runLoop ah edges).a_pos.length ≤ edges.length := by
  have h := foldl_a_pos_length ah edges initState
  rw [show initState.a_pos.length = 0 from rfl] at h
  rw [runLoop]
  omega

/-- C7: when the arrow pass reads a line width for arrow index `i`, it uses
index `i` modulo the width-list length: `dist_to_use` on `dist = [2·w for w
in lw]` always selects `lw[i % len(lw)]` (the explicit `i + 1 > len(dist)`
test in the source collapses to this). -/
theorem width_cycled_modulo (p : ℝ) (lw : List ℝ) (i : ℕ) (hlw : lw ≠ []) :
    dist_to_use p (distList lw) i = p * (2 * lw.getD (i % lw.length) 0) := by
  have hpos : 0 < lw.length := List.length_pos.2 hlw
  have hlen : (distList lw).length = lw.length := List.length_map lw _
  have hget : ∀ j : ℕ, j < lw.length → (distList lw).getD j 0 = 2 * lw.getD j 0 := by
    intro j hj
    unfold distList
    rw [List.getD_eq_getElem?_getD, List.getD_eq_getElem?_getD,
      List.getElem?_map _ lw j, List.getElem?_eq_getElem hj]
    rfl
  unfold dist_to_use
  by_cases hc : i + 1 > (distList lw).length
  · rw [if_pos hc, hlen, hget (i % lw.length) (Nat.mod_lt i hpos)]
  · rw [if_neg hc]
    rw [hlen] at hc
    have hi : i < lw.length := by omega
    rw [Nat.mod_eq_of_lt hi, hget i hi]

/-- C7 witness: with 2 widths and 5 edges, arrow index 4 reads the width at
index `4 % 2 = 0`. -/
theorem width_cycled_modulo_witness :
    dist_to_use 1 (distList [1, 2]) 4 = 1 * (2 * List.getD [1, 2] (4 % 2) 0) :=
  width_cycled_modulo 1 [1, 2] 4 (by simp)

/-- C9: the orthogonal-slope division never divides by zero: the denominator
actually used is `orthoDenom dy2`, which substitutes the epsilon
`0.00000000000001` exactly when `dy2 = 0` and is nonzero for every input. -/
theorem orthoslope_denominator_never_zero :
    (∀ dy2 : ℝ, orthoDenom dy2 ≠ 0) ∧
      orthoDenom 0 = (0.00000000000001 : ℝ) := by
  constructor
  · intro dy2
    unfold orthoDenom
    by_cases h : dy2 = 0
    · rw [if_pos h]
      norm_num
    · rw [if_neg h]
      exact h
  · unfold orthoDenom
    rw [if_pos rfl]

/-- C10: when the effective edge list is empty (an empty `edgelist` argument,
or a graph with no edges when `edgelist` is omitted), the function returns
`None` at once: no line collection, no arrow collection, and no data-limit
update is produced. -/
theorem empty_edgelist_returns_none (ν : Type) (directed : Bool)
    (Gedges : List (ν × ν)) (pos : ν → Pt) (edgelist : Option (List (ν × ν)))
    (width : Width) (edge_color : EdgeColor) (arrows arrowheads : Bool)
    (apos_on_edge : ℝ) (h : (edgelist.getD Gedges).length = 0) :
    draw_networkx_edges directed Gedges pos edgelist width edge_color arrows
      arrowheads apos_on_edge = Except.ok none := by
  simp only [draw_networkx_edges]
  rw [if_pos h]

/-- C10 witness: a concrete empty invocation returns `Except.ok none`. -/
theorem empty_edgelist_returns_none_witness :
    draw_networkx_edges true ([] : List (ℕ × ℕ)) (fun _ => ((0 : ℝ), (0 : ℝ)))
      none (Width.scalar 1) (EdgeColor.str ("k")) true true 0.15 = Except.ok none :=
  empty_edgelist_returns_none ℕ true [] (fun _ => ((0 : ℝ), (0 : ℝ))) none
    (Width.scalar 1) (EdgeColor.str ("k")) true true 0.15 (by simp)

/-- C8: calling the function with `edge_color` a list of non-string color
values whose length is neither 1 nor the edge count raises the
`ValueError` with the "must be a single color or list of exactly m colors"
message, before any collection is created or added. -/
theorem edge_color_length_mismatch_raises (ν : Type) (directed : Bool)
    (Gedges : List (ν × ν)) (pos : ν → Pt) (edgelist : Option (List (ν × ν)))
    (width : Width) (arrows arrowheads : Bool) (apos_on_edge : ℝ)
    (cs : List ColorVal)
    (_hstr : ∀ c ∈ cs, c.isStr = false)
    (h1 : cs.length ≠ 1)
    (hm : cs.length ≠ (edgelist.getD Gedges).length)
    (hne : (edgelist.getD Gedges).length ≠ 0) :
    draw_networkx_edges directed Gedges pos edgelist width (EdgeColor.vals cs)
      arrows arrowheads apos_on_edge =
      Except.error (DrawError.valueError
        ("edge_color must be a single color or list of exactly m colors where m is the number or edges")) := by
  have hres : resolveColors (EdgeColor.vals cs) (edgelist.getD Gedges).length =
      Except.error
        ("edge_color must be a single color or list of exactly m colors where m is the number or edges") := by
    simp only [resolveColors]
    rw [if_neg hm, if_neg h1]
  simp only [draw_networkx_edges]
  rw [if_neg hne, List.length_map, hres]

/-- C8 witness: three numeric colors with two edges raise the length-mismatch
`ValueError`. -/
theorem edge_color_length_mismatch_raises_witness :
    draw_networkx_edges true [((0 : ℕ), 1), (1, 2)] (fun _ => ((0 : ℝ), (0 : ℝ)))
      none (Width.scalar 1)
      (EdgeColor.vals [ColorVal.num 5, ColorVal.num 6, ColorVal.num 7])
      true true 0.15 =
      Except.error (DrawError.valueError
        ("edge_color must be a single color or list of exactly m colors where m is the number or edges")) :=
  edge_color_length_mismatch_raises ℕ true [(0, 1), (1, 2)]
    (fun _ => ((0 : ℝ), (0 : ℝ))) none (Width.scalar 1) true true 0.15
    [ColorVal.num 5, ColorVal.num 6, ColorVal.num 7]
    (by intro c hc; fin_cases hc <;> rfl) (by simp) (by simp) (by simp)

/-- C1 counterexample: for the exactly vertical edge (0,0)→(0,50) the general
trigonometric branch IS applied — with triangular arrowheads it records a
`theta` (the `thetas` list grows, which only the general `else` branch does),
and with rectangular mode its overwrite replaces the specialized value
`(x2, dy·p + y1) = (0, 37.5)` by the `p²`-scaled stub `(0, 28.125)`.  So the
claim that axis-aligned edges bypass the general formula is false. -/
theorem vertical_edge_takes_general_branch :
    (runLoop true [(((0 : ℝ), (0 : ℝ)), ((0 : ℝ), (50 : ℝ)))]).thetas.length = 1 ∧
    (runLoop false [(((0 : ℝ), (0 : ℝ)), ((0 : ℝ), (50 : ℝ)))]).a_pos =
      [(((0 : ℝ), (28.125 : ℝ)), ((0 : ℝ), (29.53125 : ℝ)))] ∧
    (((0 : ℝ), (28.125 : ℝ)) : Pt) ≠ ((0 : ℝ), (37.5 : ℝ)) := by
  have he : dOf (((0 : ℝ), (0 : ℝ)), ((0 : ℝ), (50 : ℝ))) = 50 := by
    show Real.sqrt (((0 : ℝ) - 0) ^ 2 + ((50 : ℝ) - 0) ^ 2) = 50
    rw [show ((0 : ℝ) - 0) ^ 2 + ((50 : ℝ) - 0) ^ 2 = 50 ^ 2 by norm_num]
    exact Real.sqrt_sq (by norm_num)
  have hd : dOf (((0 : ℝ), (0 : ℝ)), ((0 : ℝ), (50 : ℝ))) ≠ 0 := by
    rw [he]
    norm_num
  have hy : dyOf (((0 : ℝ), (0 : ℝ)), ((0 : ℝ), (50 : ℝ))) ≠ 0 := by
    show (50 : ℝ) - 0 ≠ 0
    norm_num
  refine ⟨?_, ?_, ?_⟩
  · rw [show runLoop true [(((0 : ℝ), (0 : ℝ)), ((0 : ℝ), (50 : ℝ)))] =
        edgeStep true initState (((0 : ℝ), (0 : ℝ)), ((0 : ℝ), (50 : ℝ))) from rfl]
    rw [edgeStep_general initState _ hd hy]
    rfl
  · rw [show runLoop false [(((0 : ℝ), (0 : ℝ)), ((0 : ℝ), (50 : ℝ)))] =
        edgeStep false initState (((0 : ℝ), (0 : ℝ)), ((0 : ℝ), (50 : ℝ))) from rfl]
    rw [edgeStep_general_rect initState _ hd hy]
    simp only [pushEdge, initState, he]
    norm_num [pOf, dxOf, dyOf]
  · intro hc
    have := congrArg Prod.snd hc
    norm_num at this

/-- C1 amended: for a non-degenerate edge, (a) if the edge is exactly
horizontal (`dy = 0`) the specialized zero-division-safe formula
`(dx·p + x1, y2)` is used and the general branch never runs (no `theta` is
recorded); (b) if the edge is exactly vertical (`dx = 0`, hence `dy ≠ 0`) the
specialized assignment is immediately overwritten by the general branch —
the `else` attaches to the `dy == 0` test — which records a `theta` and, with
triangular arrowheads, reproduces `(x2, p·dy + y1)` exactly in exact-real
arithmetic; (c) with rectangular mode the overwrite instead applies the `p²`
stub formulas. -/
theorem axis_aligned_shaft_branches (ah : Bool) (s : LoopState) (e : Edge)
    (hd : dOf e ≠ 0) :
    (dyOf e = 0 →
      (edgeStep ah s e).a_pos =
        s.a_pos ++ [((dxOf e * pOf (dOf e) + e.1.1, e.2.2), e.2)] ∧
      (edgeStep ah s e).thetas = s.thetas) ∧
    (dxOf e = 0 →
      (edgeStep true s e).a_pos =
        s.a_pos ++ [((e.2.1, pOf (dOf e) * dyOf e + e.1.2), e.2)] ∧
      (edgeStep true s e).thetas = s.thetas ++ [thetaOf e]) ∧
    (dxOf e = 0 →
      (edgeStep false s e).a_pos =
        s.a_pos ++ [((e.1.1, pOf (dOf e) * pOf (dOf e) * dyOf e + e.1.2),
          (e.1.1, 1.05 * pOf (dOf e) * pOf (dOf e) * dyOf e + e.1.2))]) := by
  refine ⟨?_, ?_, ?_⟩
  · intro hy
    rw [edgeStep_horizontal ah s e hd hy]
    constructor
    · rfl
    · simp [pushEdge]
  · intro hx
    have hy : dyOf e ≠ 0 := fun h0 => hd ((dOf_eq_zero_iff e).2 ⟨hx, h0⟩)
    have hx1 : e.1.1 = e.2.1 := by
      have : e.2.1 - e.1.1 = 0 := hx
      linarith
    rw [edgeStep_general s e hd hy]
    constructor
    · simp only [pushEdge]
      rw [hx, hx1]
      norm_num
    · simp [pushEdge]
  · intro hx
    have hy : dyOf e ≠ 0 := fun h0 => hd ((dOf_eq_zero_iff e).2 ⟨hx, h0⟩)
    rw [edgeStep_general_rect s e hd hy]
    simp only [pushEdge]
    rw [hx]
    norm_num

/-- C1 witness: the amended branch description instantiated at the vertical
edge (0,0)→(0,50). -/
theorem axis_aligned_shaft_branches_witness :
    (dyOf (((0 : ℝ), (0 : ℝ)), ((0 : ℝ), (50 : ℝ))) = 0 →
      (edgeStep true initState (((0 : ℝ), (0 : ℝ)), ((0 : ℝ), (50 : ℝ)))).a_pos =
        initState.a_pos ++
          [((dxOf (((0 : ℝ), (0 : ℝ)), ((0 : ℝ), (50 : ℝ))) *
              pOf (dOf (((0 : ℝ), (0 : ℝ)), ((0 : ℝ), (50 : ℝ)))) + 0, (50 : ℝ)),
            ((0 : ℝ), (50 : ℝ)))] ∧
      (edgeStep true initState (((0 : ℝ), (0 : ℝ)), ((0 : ℝ), (50 : ℝ)))).thetas =
        initState.thetas) ∧
    (dxOf (((0 : ℝ), (0 : ℝ)), ((0 : ℝ), (50 : ℝ))) = 0 →
      (edgeStep true initState (((0 : ℝ), (0 : ℝ)), ((0 : ℝ), (50 : ℝ)))).a_pos =
        initState.a_pos ++
          [(((0 : ℝ), pOf (dOf (((0 : ℝ), (0 : ℝ)), ((0 : ℝ), (50 : ℝ)))) *
              dyOf (((0 : ℝ), (0 : ℝ)), ((0 : ℝ), (50 : ℝ))) + 0),
            ((0 : ℝ), (50 : ℝ)))] ∧
      (edgeStep true initState (((0 : ℝ), (0 : ℝ)), ((0 : ℝ), (50 : ℝ)))).thetas =
        initState.thetas ++ [thetaOf (((0 : ℝ), (0 : ℝ)), ((0 : ℝ), (50 : ℝ)))]) ∧
    (dxOf (((0 : ℝ), (0 : ℝ)), ((0 : ℝ), (50 : ℝ))) = 0 →
      (edgeStep false initState (((0 : ℝ), (0 : ℝ)), ((0 : ℝ), (50 : ℝ)))).a_pos =
        initState.a_pos ++
          [(((0 : ℝ), pOf (dOf (((0 : ℝ), (0 : ℝ)), ((0 : ℝ), (50 : ℝ)))) *
              pOf (dOf (((0 : ℝ), (0 : ℝ)), ((0 : ℝ), (50 : ℝ)))) *
              dyOf (((0 : ℝ), (0 : ℝ)), ((0 : ℝ), (50 : ℝ))) + 0),
            ((0 : ℝ), 1.05 * pOf (dOf (((0 : ℝ), (0 : ℝ)), ((0 : ℝ), (50 : ℝ)))) *
              pOf (dOf (((0 : ℝ), (0 : ℝ)), ((0 : ℝ), (50 : ℝ)))) *
              dyOf (((0 : ℝ), (0 : ℝ)), ((0 : ℝ), (50 : ℝ))) + 0))]) :=
  axis_aligned_shaft_branches true initState (((0 : ℝ), (0 : ℝ)), ((0 : ℝ), (50 : ℝ)))
    (by
      rw [show dOf (((0 : ℝ), (0 : ℝ)), ((0 : ℝ), (50 : ℝ))) =
          Real.sqrt (((0 : ℝ) - 0) ^ 2 + ((50 : ℝ) - 0) ^ 2) from rfl,
        show ((0 : ℝ) - 0) ^ 2 + ((50 : ℝ) - 0) ^ 2 = 50 ^ 2 by norm_num,
        Real.sqrt_sq (by norm_num : (0 : ℝ) ≤ 50)]
      norm_num)

/-- C2 counterexample: for the single edge (0,0)→(15,20) with `lw = [1]` the
loop records orthogonal slope `-0.75` and leaves `p = 0.5`, so
`dist_to_use = 1`; the source computes `arrow_width = sqrt(1/(1-0.75)) = 2`,
while the claimed formula `sqrt(d²/(1+slope²))` gives
`sqrt(1/1.5625) = 0.8 ≠ 2`. -/
theorem arrow_width_divides_by_slope_not_square :
    arrow_width
        (dist_to_use (runLoop true [(((0 : ℝ), (0 : ℝ)), ((15 : ℝ), (20 : ℝ)))]).p
          (distList [1]) 0)
        ((runLoop true [(((0 : ℝ), (0 : ℝ)), ((15 : ℝ), (20 : ℝ)))]).orthoslope.getD 0 0) =
      2 ∧
    specArrowWidth
        (dist_to_use (runLoop true [(((0 : ℝ), (0 : ℝ)), ((15 : ℝ), (20 : ℝ)))]).p
          (distList [1]) 0)
        ((runLoop true [(((0 : ℝ), (0 : ℝ)), ((15 : ℝ), (20 : ℝ)))]).orthoslope.getD 0 0) =
      0.8 ∧
    (2 : ℝ) ≠ 0.8 := by
  have he : dOf (((0 : ℝ), (0 : ℝ)), ((15 : ℝ), (20 : ℝ))) = 25 := by
    show Real.sqrt (((15 : ℝ) - 0) ^ 2 + ((20 : ℝ) - 0) ^ 2) = 25
    rw [show ((15 : ℝ) - 0) ^ 2 + ((20 : ℝ) - 0) ^ 2 = 25 ^ 2 by norm_num]
    exact Real.sqrt_sq (by norm_num)
  have hd : dOf (((0 : ℝ), (0 : ℝ)), ((15 : ℝ), (20 : ℝ))) ≠ 0 := by
    rw [he]
    norm_num
  have hy : dyOf (((0 : ℝ), (0 : ℝ)), ((15 : ℝ), (20 : ℝ))) ≠ 0 := by
    show (20 : ℝ) - 0 ≠ 0
    norm_num
  have hs : runLoop true [(((0 : ℝ), (0 : ℝ)), ((15 : ℝ), (20 : ℝ)))] =
      edgeStep true initState (((0 : ℝ), (0 : ℝ)), ((15 : ℝ), (20 : ℝ))) := rfl
  rw [hs, edgeStep_general initState _ hd hy]
  have hp : pOf (25 : ℝ) = 0.5 := by
    unfold pOf
    norm_num
  have hslope : (-1 * ((15 : ℝ) - (pOf (dOf (((0 : ℝ), (0 : ℝ)), ((15 : ℝ), (20 : ℝ)))) *
        dxOf (((0 : ℝ), (0 : ℝ)), ((15 : ℝ), (20 : ℝ))) + 0))) /
      orthoDenom ((20 : ℝ) - (pOf (dOf (((0 : ℝ), (0 : ℝ)), ((15 : ℝ), (20 : ℝ)))) *
        dyOf (((0 : ℝ), (0 : ℝ)), ((15 : ℝ), (20 : ℝ))) + 0)) = -0.75 := by
    rw [he, hp]
    rw [show dxOf (((0 : ℝ), (0 : ℝ)), ((15 : ℝ), (20 : ℝ))) = (15 : ℝ) by
      show (15 : ℝ) - 0 = 15; norm_num]
    rw [show dyOf (((0 : ℝ), (0 : ℝ)), ((15 : ℝ), (20 : ℝ))) = (20 : ℝ) by
      show (20 : ℝ) - 0 = 20; norm_num]
    rw [show (20 : ℝ) - ((0.5 : ℝ) * 20 + 0) = 10 by norm_num]
    rw [show orthoDenom (10 : ℝ) = 10 from if_neg (by norm_num)]
    norm_num
  simp only [pushEdge, initState]
  rw [he, hp] at *
  simp only [List.nil_append, List.getD_cons_zero, hslope]
  have hdtu : dist_to_use (0.5 : ℝ) (distList [1]) 0 = 1 := by
    unfold dist_to_use distList
    norm_num
  rw [hdtu]
  refine ⟨?_, ?_, by norm_num⟩
  · unfold arrow_width
    rw [if_neg (by norm_num)]
    rw [show (1 : ℝ) ^ 2 / (1 + (-0.75 : ℝ)) = 4 by norm_num]
    exact sqrt_eq_of_sq 4 2 (by norm_num) (by norm_num)
  · unfold specArrowWidth
    rw [show (1 : ℝ) ^ 2 / (1 + (-0.75 : ℝ) ^ 2) = 0.64 by norm_num]
    exact sqrt_eq_of_sq 0.64 0.8 (by norm_num) (by norm_num)

/-- C2 amended: for an aligned run (all edges non-degenerate with `dy ≠ 0`)
the slope consumed at arrow index `i` is that edge's own orthogonal slope
`-dx/dy`, and the wing offset equals `sqrt(d²/(1 + slope))` — denominator
`1 + slope`, the slope itself, not its square — when that radicand is
nonnegative, and half the square root of the radicand's absolute value when
it is negative. -/
theorem arrow_width_amended (edges : List Edge)
    (h : ∀ e ∈ edges, dOf e ≠ 0 ∧ dyOf e ≠ 0) (i : ℕ) (hi : i < edges.length) :
    (runLoop true edges).orthoslope.getD i 0 = slopeOf edges[i] ∧
    (∀ dtu sl : ℝ, 0 ≤ dtu ^ 2 / (1 + sl) →
      arrow_width dtu sl = Real.sqrt (dtu ^ 2 / (1 + sl))) ∧
    (∀ dtu sl : ℝ, dtu ^ 2 / (1 + sl) < 0 →
      arrow_width dtu sl = 0.5 * Real.sqrt |dtu ^ 2 / (1 + sl)|) := by
  refine ⟨?_, ?_, ?_⟩
  · rw [runLoop, foldl_aligned edges h initState]
    show (([] : List ℝ) ++ List.map slopeOf edges).getD i 0 = slopeOf edges[i]
    rw [List.nil_append, List.getD_eq_getElem?_getD, List.getElem?_map slopeOf edges i,
      List.getElem?_eq_getElem hi]
    rfl
  · intro dtu sl hge
    unfold arrow_width
    rw [if_neg (not_lt.2 hge)]
  · intro dtu sl hlt
    unfold arrow_width
    rw [if_pos hlt]
    rw [show -1 * dtu ^ 2 / (1 + sl) = -(dtu ^ 2 / (1 + sl)) by ring]
    rw [abs_of_neg hlt]

/-- C2 amended witness: the slope-and-width description instantiated for the
single edge (0,0)→(15,20) at arrow index 0. -/
theorem arrow_width_amended_witness :
    (runLoop true [(((0 : ℝ), (0 : ℝ)), ((15 : ℝ), (20 : ℝ)))]).orthoslope.getD 0 0 =
      slopeOf ([(((0 : ℝ), (0 : ℝ)), ((15 : ℝ), (20 : ℝ)))].get ⟨0, by norm_num⟩) ∧
    (∀ dtu sl : ℝ, 0 ≤ dtu ^ 2 / (1 + sl) →
      arrow_width dtu sl = Real.sqrt (dtu ^ 2 / (1 + sl))) ∧
    (∀ dtu sl : ℝ, dtu ^ 2 / (1 + sl) < 0 →
      arrow_width dtu sl = 0.5 * Real.sqrt |dtu ^ 2 / (1 + sl)|) :=
  arrow_width_amended [(((0 : ℝ), (0 : ℝ)), ((15 : ℝ), (20 : ℝ)))]
    (by
      intro e' he'
      rw [List.mem_singleton] at he'
      subst he'
      constructor
      · rw [show dOf (((0 : ℝ), (0 : ℝ)), ((15 : ℝ), (20 : ℝ))) =
            Real.sqrt (((15 : ℝ) - 0) ^ 2 + ((20 : ℝ) - 0) ^ 2) from rfl,
          show ((15 : ℝ) - 0) ^ 2 + ((20 : ℝ) - 0) ^ 2 = 25 ^ 2 by norm_num,
          Real.sqrt_sq (by norm_num : (0 : ℝ) ≤ 25)]
        norm_num
      · show (20 : ℝ) - 0 ≠ 0
        norm_num)
    0 (by norm_num)

/-- C6 counterexample: with the degenerate edge (0,0)→(0,0) first and the
edge (0,0)→(3,4) (length 5) second, the `lengths` list is `[0, 5]` while
`a_pos` has a single entry for the second edge, so the triangle for that edge
is translated by `apos_on_edge · lengths[0] = 0.15 · 0 = 0` instead of
`0.15 · 5`: its tip stays at (3,4), not the claimed
`(3 − 0.15·5·(3/5), 4 − 0.15·5·(4/5)) = (2.55, 3.4)`. -/
theorem triangle_translation_misaligned :
    a_vert (runLoop true
        [(((0 : ℝ), (0 : ℝ)), ((0 : ℝ), (0 : ℝ))),
         (((0 : ℝ), (0 : ℝ)), ((3 : ℝ), (4 : ℝ)))]) [1] 0.15 0 =
      some ((((1.5 : ℝ), (-10.5 : ℝ)), ((-10.5 : ℝ), (-1.5 : ℝ)),
        ((3 : ℝ), (4 : ℝ)))) ∧
    (((3 : ℝ), (4 : ℝ)) : Pt) ≠
      ((3 : ℝ) - 0.15 * 5 * (3 / 5), (4 : ℝ) - 0.15 * 5 * (4 / 5)) := by
  have he1 : dOf (((0 : ℝ), (0 : ℝ)), ((0 : ℝ), (0 : ℝ))) = 0 := by
    show Real.sqrt (((0 : ℝ) - 0) ^ 2 + ((0 : ℝ) - 0) ^ 2) = 0
    rw [show ((0 : ℝ) - 0) ^ 2 + ((0 : ℝ) - 0) ^ 2 = 0 by norm_num]
    exact Real.sqrt_zero
  have he2 : dOf (((0 : ℝ), (0 : ℝ)), ((3 : ℝ), (4 : ℝ))) = 5 := by
    show Real.sqrt (((3 : ℝ) - 0) ^ 2 + ((4 : ℝ) - 0) ^ 2) = 5
    rw [show ((3 : ℝ) - 0) ^ 2 + ((4 : ℝ) - 0) ^ 2 = 5 ^ 2 by norm_num]
    exact Real.sqrt_sq (by norm_num)
  have hd2 : dOf (((0 : ℝ), (0 : ℝ)), ((3 : ℝ), (4 : ℝ))) ≠ 0 := by
    rw [he2]
    norm_num
  have hy2 : dyOf (((0 : ℝ), (0 : ℝ)), ((3 : ℝ), (4 : ℝ))) ≠ 0 := by
    show (4 : ℝ) - 0 ≠ 0
    norm_num
  have hp2 : pOf (5 : ℝ) = -1.5 := by
    unfold pOf
    norm_num
  constructor
  · have hs1 : edgeStep true initState (((0 : ℝ), (0 : ℝ)), ((0 : ℝ), (0 : ℝ))) =
        { initState with
          lengths := initState.lengths ++ [dOf (((0 : ℝ), (0 : ℝ)), ((0 : ℝ), (0 : ℝ)))]
          p := pOf (dOf (((0 : ℝ), (0 : ℝ)), ((0 : ℝ), (0 : ℝ)))) } :=
      edgeStep_degenerate true initState _ he1
    have hrun : runLoop true
        [(((0 : ℝ), (0 : ℝ)), ((0 : ℝ), (0 : ℝ))),
         (((0 : ℝ), (0 : ℝ)), ((3 : ℝ), (4 : ℝ)))] =
        edgeStep true (edgeStep true initState (((0 : ℝ), (0 : ℝ)), ((0 : ℝ), (0 : ℝ))))
          (((0 : ℝ), (0 : ℝ)), ((3 : ℝ), (4 : ℝ))) := rfl
    rw [hrun, hs1, edgeStep_general _ _ hd2 hy2]
    simp only [pushEdge, initState, he1, he2, hp2]
    have hdx2 : dxOf (((0 : ℝ), (0 : ℝ)), ((3 : ℝ), (4 : ℝ))) = 3 := by
      show (3 : ℝ) - 0 = 3
      norm_num
    have hdy2v : dyOf (((0 : ℝ), (0 : ℝ)), ((3 : ℝ), (4 : ℝ))) = 4 := by
      show (4 : ℝ) - 0 = 4
      norm_num
    rw [hdx2, hdy2v]
    have hsl : (-1 * ((3 : ℝ) - ((-1.5 : ℝ) * 3 + 0))) /
        orthoDenom ((4 : ℝ) - ((-1.5 : ℝ) * 4 + 0)) = -0.75 := by
      rw [show (4 : ℝ) - ((-1.5 : ℝ) * 4 + 0) = 10 by norm_num]
      rw [show orthoDenom (10 : ℝ) = 10 from if_neg (by norm_num)]
      norm_num
    rw [hsl]
    have hdtu : dist_to_use (-1.5 : ℝ) (distList [1]) 0 = -3 := by
      unfold dist_to_use distList
      norm_num
    simp only [a_vert, List.nil_append, List.singleton_append, Option.map_some',
      Option.getD_some, List.getElem?_cons_zero, hdtu]
    have haw : arrow_width (-3 : ℝ) (-0.75 : ℝ) = 6 := by
      unfold arrow_width
      rw [if_neg (by norm_num)]
      rw [show ((-3 : ℝ)) ^ 2 / (1 + (-0.75 : ℝ)) = 36 by norm_num]
      exact sqrt_eq_of_sq 36 6 (by norm_num) (by norm_num)
    rw [haw]
    norm_num [Prod.mk.injEq]
  · intro hc
    have := congrArg Prod.fst hc
    norm_num at this

/-- C6 witness: the aligned-translation theorem instantiated at the single
edge (0,0)→(15,20), arrow index 0. -/
theorem a_vert_aligned_witness :
    a_vert (runLoop true [(((0 : ℝ), (0 : ℝ)), ((15 : ℝ), (20 : ℝ)))]) [1] 0.15 0 =
      some (triangleOf (pAfter (1 - 0.25) [(((0 : ℝ), (0 : ℝ)), ((15 : ℝ), (20 : ℝ)))])
        [1] 0.15 0 ([(((0 : ℝ), (0 : ℝ)), ((15 : ℝ), (20 : ℝ)))].get ⟨0, by norm_num⟩)) :=
  a_vert_aligned [(((0 : ℝ), (0 : ℝ)), ((15 : ℝ), (20 : ℝ)))]
    (by
      intro e' he'
      rw [List.mem_singleton] at he'
      subst he'
      constructor
      · rw [show dOf (((0 : ℝ), (0 : ℝ)), ((15 : ℝ), (20 : ℝ))) =
            Real.sqrt (((15 : ℝ) - 0) ^ 2 + ((20 : ℝ) - 0) ^ 2) from rfl,
          show ((15 : ℝ) - 0) ^ 2 + ((20 : ℝ) - 0) ^ 2 = 25 ^ 2 by norm_num,
          Real.sqrt_sq (by norm_num : (0 : ℝ) ≤ 25)]
        norm_num
      · show (20 : ℝ) - 0 ≠ 0
        norm_num)
    [1] 0.15 0 (by norm_num)

/-- C5: evaluation at the failing input.  A directed graph with the single
non-degenerate horizontal edge (0,0)→(100,0), arrows on and triangular
arrowheads, produces no polygon at all: the horizontal branch records no
`theta`, so the `a_verts` comprehension reads `thetas[0]` out of range and the
call raises `IndexError` instead of yielding one 3-vertex polygon per
non-degenerate edge.  (Rectangular mode, which never reads `thetas`, does
yield exactly one stub segment per non-degenerate edge.) -/
theorem horizontal_edge_crashes_triangular_mode :
    draw_networkx_edges true [(((0 : ℝ), (0 : ℝ)), ((100 : ℝ), (0 : ℝ)))]
      (fun q : Pt => q) none (Width.scalar 1) (EdgeColor.str ("k")) true true 0.15 =
      Except.error DrawError.indexError := by
  have he : dOf (((0 : ℝ), (0 : ℝ)), ((100 : ℝ), (0 : ℝ))) = 100 := by
    show Real.sqrt (((100 : ℝ) - 0) ^ 2 + ((0 : ℝ) - 0) ^ 2) = 100
    rw [show ((100 : ℝ) - 0) ^ 2 + ((0 : ℝ) - 0) ^ 2 = 100 ^ 2 by norm_num]
    exact Real.sqrt_sq (by norm_num)
  have hd : dOf (((0 : ℝ), (0 : ℝ)), ((100 : ℝ), (0 : ℝ))) ≠ 0 := by
    rw [he]
    norm_num
  have hy : dyOf (((0 : ℝ), (0 : ℝ)), ((100 : ℝ), (0 : ℝ))) = 0 := by
    show (0 : ℝ) - 0 = 0
    norm_num
  have hv : a_verts (runLoop true [(((0 : ℝ), (0 : ℝ)), ((100 : ℝ), (0 : ℝ)))])
      (lwOf (Width.scalar 1)) 0.15 = none := by
    rw [show runLoop true [(((0 : ℝ), (0 : ℝ)), ((100 : ℝ), (0 : ℝ)))] =
        edgeStep true initState (((0 : ℝ), (0 : ℝ)), ((100 : ℝ), (0 : ℝ))) from rfl]
    rw [edgeStep_horizontal true initState _ hd hy]
    rfl
  simp only [draw_networkx_edges, Option.getD_none, List.map_cons, List.map_nil,
    Prod.mk.eta, List.length_singleton, resolveColors, Bool.and_self, if_true]
  rw [if_neg (by norm_num : ¬(1 = 0))]
  rw [hv]

end DrawArrows
